import Mathlib

/-!
Shallow embedding of `xkcdpass/xkcd_password.py` (XKCD-style passphrase
generator): wordlist filtering, acrostic indexing, random word selection,
case transformation, and passphrase assembly, together with proofs of the
specification claims about them.

Randomness is modelled by explicit raw draw streams `r : Nat → Nat` (the
`i`-th value is the raw entropy consumed by the `i`-th draw); a uniform
draw below `n` is obtained as `r i % n`.
-/

namespace XkcdPass

/-- Python `str.lower()` on a word: every character lowercased. -/
def str_lower (s : String) : String := String.mk (s.toList.map Char.toLower)

/-- Python `str.upper()` on a word: every character uppercased. -/
def str_upper (s : String) : String := String.mk (s.toList.map Char.toUpper)

/-- Python `str.capitalize()`: first character uppercased, the rest
lowercased. -/
def str_capitalize (s : String) : String :=
  match s.toList with
  | [] => ""
  | c :: cs => String.mk (c.toUpper :: cs.map Char.toLower)

/-- `lower_case` (line 256): set ALL words to lower case. -/
def lower_case (words : List String) : List String := words.map str_lower

/-- `upper_case` (line 238): set ALL words to upper case. -/
def upper_case (words : List String) : List String := words.map str_upper

/-- `first_upper_case` (line 244): `[w.capitalize() for w in words]`. -/
def first_upper_case (words : List String) : List String := words.map str_capitalize

/-- `capitalize_case` (line 262): `[w.capitalize() for w in words]`. -/
def capitalize_case (words : List String) : List String := words.map str_capitalize

/-- `sentence_case` (line 250):
`[w.capitalize() if i == 0 else w for i, w in enumerate(words)]`. -/
def sentence_case (words : List String) : List String :=
  words.enum.map (fun p => if p.1 = 0 then str_capitalize p.2 else p.2)

/-- `alternating_case` (line 228): every other word of `lower_case(words)`
(zero-based even positions) set to upper case. -/
def alternating_case (words : List String) : List String :=
  (lower_case words).enum.map (fun p => if p.1 % 2 = 0 then str_upper p.2 else p.2)

/-- Abstract model of the `random` module generator used by `random_case`:
`seed w` is the generator state right after `random.seed(w)`, and
`next st` is the boolean drawn by `random.choice([True, False])` in state
`st`, together with the successor state. -/
structure PRNG where
  seed : String → Nat
  next : Nat → Bool × Nat

/-- Inner `make_upper` of `random_case` (lines 273-281): in testing mode the
generator is reseeded from the word itself before the coin flip. Returns
the cased word and the generator state after the flip. -/
def make_upper (g : PRNG) (testing : Bool) (word : String) (st : Nat) : String × Nat :=
  let st1 := if testing then g.seed word else st
  let r := g.next st1
  (if r.1 then str_upper word else word, r.2)

/-- The comprehension `[make_upper(word) for word in lower_case(words)]`,
with the generator state threaded left to right. -/
def random_case_go (g : PRNG) (testing : Bool) : List String → Nat → List String × Nat
  | [], st => ([], st)
  | w :: ws, st =>
    let r := make_upper g testing w st
    let rest := random_case_go g testing ws r.2
    (r.1 :: rest.1, rest.2)

/-- `random_case` (line 269): set RANDOM words of `lower_case(words)` to
upper case. -/
def random_case (g : PRNG) (words : List String) (testing : Bool) (st : Nat) :
    List String × Nat :=
  random_case_go g testing (lower_case words) st

/-- The coin flip of the testing mode of `random_case`: seed from the word's
own text, then draw once. A function of the word alone. -/
def word_coin (g : PRNG) (w : String) : Bool := (g.next (g.seed w)).1

/-- `set_case` (line 296): dispatch over `CASE_METHODS` (line 286), with the
special testing branch for the random method; an unknown method name is a
`KeyError` (`none`). -/
def set_case (g : PRNG) (st : Nat) (words : List String) (method : String)
    (testing : Bool) : Option (List String) :=
  if method = "random" ∧ testing = true then some (random_case g words true st).1
  else if method = "sentence" then some (sentence_case words)
  else if method = "alternating" then some (alternating_case words)
  else if method = "upper" then some (upper_case words)
  else if method = "lower" then some (lower_case words)
  else if method = "random" then some (random_case g words false st).1
  else if method = "first" then some (first_upper_case words)
  else if method = "capitalize" then some (capitalize_case words)
  else none

/-- Python `line.strip()`: remove leading and trailing whitespace. -/
def py_strip (s : String) : String :=
  String.mk (((s.toList.dropWhile Char.isWhitespace).reverse.dropWhile
    Char.isWhitespace).reverse)

/-- Semantics of the anchored regular expression `^C{m,n}$` compiled by
`generate_wordlist` (line 128), where `p` is the predicate of the single
character class `C`: the string is made of between `minl` and `maxl`
characters, each matching `p`. -/
def matches_filter (p : Char → Bool) (minl maxl : Nat) (w : String) : Bool :=
  decide (minl ≤ w.length) && decide (w.length ≤ maxl) && w.toList.all p

/-- `generate_wordlist` (lines 112-138) on the lines of the word file: raise
`max_length` to `min_length` when inconsistent, strip each line, keep the
lines matching the anchored pattern, deduplicate (the Python code collects
into a `set`). -/
def generate_wordlist (lines : List String) (minl maxl : Nat) (p : Char → Bool) :
    List String :=
  let maxEff := if minl > maxl then minl else maxl
  ((lines.map py_strip).filter (matches_filter p minl maxEff)).dedup

/-- First character of a word, `none` for the empty string (where Python
`word[0]` raises IndexError). -/
def first_char (w : String) : Option Char := w.toList.head?

/-- Python `dict` lookup `worddict[c]` on the association-list model. -/
def dict_lookup (c : Char) : List (Char × List String) → Option (List String)
  | [] => none
  | q :: d => if q.1 = c then some q.2 else dict_lookup c d

/-- One iteration of the `wordlist_to_worddict` loop (lines 150-154):
`worddict[c].append(w)` when the key exists, else `worddict[c] = [w]`. -/
def dict_append (d : List (Char × List String)) (c : Char) (w : String) :
    List (Char × List String) :=
  match dict_lookup c d with
  | some _ => d.map (fun q => if q.1 = c then (q.1, q.2 ++ [w]) else q)
  | none => d ++ [(c, [w])]

/-- The `for word in wordlist` loop of `wordlist_to_worddict`; `none` models
the uncaught IndexError raised by `word[0]` on an empty-string entry. -/
def wordlist_to_worddict_go (d : List (Char × List String)) :
    List String → Option (List (Char × List String))
  | [] => some d
  | w :: ws =>
    match w.toList with
    | [] => none
    | c :: _ => wordlist_to_worddict_go (dict_append d c w) ws

/-- `wordlist_to_worddict` (lines 141-156): bucket a wordlist by first
letter, in insertion order. -/
def wordlist_to_worddict (wordlist : List String) :
    Option (List (Char × List String)) :=
  wordlist_to_worddict_go [] wordlist

/-- `rng().choice(l)` driven by the raw draw `n`: a secure uniform index
below `l.length`; `none` models the IndexError on an empty sequence. -/
def rng_choice {α : Type} (l : List α) (n : Nat) : Option α := l.get? (n % l.length)

/-- The comprehension of `choose_words` (line 208), drawing with the `i`-th
raw value of the stream `r` at each step. -/
def choose_words_go (wordlist : List String) (r : Nat → Nat) :
    Nat → Nat → Option (List String)
  | 0, _ => some []
  | n + 1, i =>
    match rng_choice wordlist (r i) with
    | none => none
    | some w =>
      match choose_words_go wordlist r n (i + 1) with
      | none => none
      | some ws => some (w :: ws)

/-- `choose_words` (lines 203-208): `numwords` independent uniform draws
from `wordlist`. -/
def choose_words (wordlist : List String) (numwords : Nat) (r : Nat → Nat) :
    Option (List String) :=
  choose_words_go wordlist r numwords 0

/-- Abnormal terminations of the generator. `exitOne msg` models writing
`msg` to stderr followed by `sys.exit(1)`; `indexError` models an uncaught
IndexError. -/
inductive GenError where
  | exitOne (msg : String)
  | indexError
deriving DecidableEq, Repr

/-- The stderr message of `find_acrostic` (line 198) for a missing letter. -/
def no_words_message (c : Char) : String :=
  "No words found starting with " ++ String.mk [c] ++ "\n"

/-- The `for letter in acrostic` loop of `find_acrostic` (lines 194-199):
a missing bucket is a KeyError, caught and turned into a message plus
`sys.exit(1)`. -/
def find_acrostic_go (worddict : List (Char × List String)) (r : Nat → Nat) :
    List Char → Nat → Except GenError (List String)
  | [], _ => .ok []
  | c :: cs, i =>
    match dict_lookup c worddict with
    | none => .error (.exitOne (no_words_message c))
    | some bucket =>
      match rng_choice bucket (r i) with
      | none => .error .indexError
      | some w =>
        match find_acrostic_go worddict r cs (i + 1) with
        | .error e => .error e
        | .ok ws => .ok (w :: ws)

/-- `find_acrostic` (lines 185-200): one uniform draw per acrostic letter
from that letter's bucket. -/
def find_acrostic (acrostic : List Char) (worddict : List (Char × List String))
    (r : Nat → Nat) : Except GenError (List String) :=
  find_acrostic_go worddict r acrostic 0

/-- `ALLOWED_SYMBOLS` (line 65). -/
def ALLOWED_SYMBOLS : String := "!#$%&()*+,-.:;<=>?@[]^_\x7b|\x7d~"

/-- `random.randint(lo, hi)` driven by the raw draw `n`: a value in
`[lo, hi]`. -/
def randint (lo hi : Nat) (n : Nat) : Nat := lo + n % (hi + 1 - lo)

/-- `str(d)` for a decimal digit `d`. -/
def digit_char (n : Nat) : Char := Char.ofNat (48 + n)

/-- The digit loop of `gen_passwd` (lines 347-349): `num_digits` characters
`str(random.randint(0, 9))`, concatenated. -/
def gen_digits (num_digits : Nat) (r : Nat → Nat) : String :=
  String.mk ((List.range num_digits).map (fun i => digit_char (randint 0 9 (r i))))

/-- The symbol loop of `gen_passwd` (lines 353-355): `num_symbols` characters
`ALLOWED_SYMBOLS[random.randint(0, len(ALLOWED_SYMBOLS) - 1)]`. -/
def gen_symbols (num_symbols : Nat) (r : Nat → Nat) : String :=
  String.mk ((List.range num_symbols).map
    (fun i => ALLOWED_SYMBOLS.toList.getD
      (randint 0 (ALLOWED_SYMBOLS.length - 1) (r i)) ' '))

/-- The assembly step of `gen_passwd` (lines 343-357) applied to the already
cased word sequence: `delimiter.join(words) + digits + symbols`. -/
def assemble (cased : List String) (delimiter : String)
    (num_digits num_symbols : Nat) (rd rs : Nat → Nat) : String :=
  String.intercalate delimiter cased ++ gen_digits num_digits rd
    ++ gen_symbols num_symbols rs

/-- Which process-wide generator a draw consumes. `secure` is `rng()`, which
is `random.SystemRandom` by default (line 45); `insecure` is the module
level Mersenne-Twister generator behind bare `random.randint`. -/
inductive RngKind where
  | secure
  | insecure
deriving DecidableEq, Repr

/-- The sequence of generators consumed by one `gen_passwd` call
(lines 337-357), in draw order: the word draws go through `rng().choice`
(secure by default), while the digit and symbol loops call
`random.randint` on the module-level generator. -/
def gen_passwd_rng_trace (acrostic : Option (List Char))
    (numwords num_digits num_symbols : Nat) : List RngKind :=
  let wordDraws := match acrostic with | none => numwords | some a => a.length
  List.replicate wordDraws RngKind.secure
    ++ List.replicate num_digits RngKind.insecure
    ++ List.replicate num_symbols RngKind.insecure

/-- Outcome of `verbose_reports` (lines 159-182). `valueError` is the
uncaught `ValueError` (math domain error) raised by `math.log(0, 2)`;
`printed poolSize numwords` is the normal informational report, which
emits no diagnostic. -/
inductive ReportResult where
  | valueError
  | printed (poolSize numwords : Nat)
deriving DecidableEq, Repr

/-- `verbose_reports` (lines 159-182): the pool size is the wordlist length
in plain mode, and the sum of the acrostic letters' bucket sizes
(`worddict.get(char, [])`) in acrostic mode, where `numwords` becomes the
acrostic length. `math.log(length, 2)` raises for a pool of size 0. -/
def verbose_reports (wordlist : List String) (acrostic : Option (List Char))
    (numwords : Nat) : Option ReportResult :=
  match acrostic with
  | some a =>
    match wordlist_to_worddict wordlist with
    | none => none
    | some d =>
      let poolSize := (a.map (fun c => ((dict_lookup c d).getD []).length)).sum
      some (if poolSize = 0 then ReportResult.valueError
            else ReportResult.printed poolSize a.length)
  | none =>
    some (if wordlist.length = 0 then ReportResult.valueError
          else ReportResult.printed wordlist.length numwords)

/-! ## Helper lemmas -/

theorem digit_char_isDigit : ∀ m, m < 10 → (digit_char m).isDigit = true := by decide

theorem allowed_symbols_getD_mem :
    ∀ m, m < 27 →
      ALLOWED_SYMBOLS.toList.contains (ALLOWED_SYMBOLS.toList.getD m ' ') = true := by
  decide

theorem random_case_go_length (g : PRNG) (testing : Bool) :
    ∀ (l : List String) (st : Nat),
      (random_case_go g testing l st).1.length = l.length := by
  intro l
  induction l with
  | nil => intro st; rfl
  | cons w ws ih => intro st; simp [random_case_go, ih]

theorem enumFrom_map_if_zero (f : String → String) :
    ∀ (l : List String) (n : Nat), 0 < n →
      (l.enumFrom n).map (fun p => if p.1 = 0 then f p.2 else p.2) = l := by
  intro l
  induction l with
  | nil => intro n _; rfl
  | cons w ws ih =>
    intro n hn
    simp only [List.enumFrom, List.map]
    rw [if_neg (Nat.pos_iff_ne_zero.mp hn), ih (n + 1) (Nat.succ_pos n)]

theorem sentence_case_cons (w : String) (ws : List String) :
    sentence_case (w :: ws) = str_capitalize w :: ws := by
  simp only [sentence_case, List.enum_cons, List.map, Nat.zero_add]
  rw [if_pos trivial, enumFrom_map_if_zero str_capitalize ws 1 Nat.one_pos]

theorem alternating_case_get? (words : List String) (i : Nat) :
    (alternating_case words).get? i
      = (words.get? i).map
          (fun w => if i % 2 = 0 then str_upper (str_lower w) else str_lower w) := by
  simp only [alternating_case, lower_case]
  rw [List.get?_map, List.get?_enum, List.get?_map]
  cases words.get? i <;> simp

theorem random_case_go_testing_map (g : PRNG) :
    ∀ (l : List String) (st : Nat),
      (random_case_go g true l st).1
        = l.map (fun w => if word_coin g w then str_upper w else w) := by
  intro l
  induction l with
  | nil => intro st; rfl
  | cons w ws ih => intro st; simp [random_case_go, make_upper, word_coin, ih]

/-! ## Claim theorems -/

/-- C5: the assembled passphrase equals the cased words joined by the
delimiter, immediately followed by the digit string, immediately followed
by the symbol string, with no trailing delimiter; every generated digit
character is a decimal digit; every generated symbol character belongs to
`ALLOWED_SYMBOLS`; and `["Foo","Bar"]` with delimiter `"."`, digit draws
producing `"12"` and a symbol draw producing `"!"` assembles to
`"Foo.Bar12!"`. -/
theorem assemble_spec :
    (∀ (cased : List String) (delimiter : String) (nd ns : Nat) (rd rs : Nat → Nat),
      assemble cased delimiter nd ns rd rs
        = String.intercalate delimiter cased ++ gen_digits nd rd ++ gen_symbols ns rs)
    ∧ (∀ (nd : Nat) (rd : Nat → Nat),
        (gen_digits nd rd).toList.all Char.isDigit = true)
    ∧ (∀ (ns : Nat) (rs : Nat → Nat),
        (gen_symbols ns rs).toList.all
          (fun c => ALLOWED_SYMBOLS.toList.contains c) = true)
    ∧ assemble ["Foo", "Bar"] "." 2 1 (fun i => [1, 2].getD i 0) (fun _ => 0)
        = "Foo.Bar12!" := by
  refine ⟨fun _ _ _ _ _ _ => rfl, ?_, ?_, by decide⟩
  · intro nd rd
    rw [List.all_eq_true]
    intro c hc
    have hc' : c ∈ (List.range nd).map (fun i => digit_char (randint 0 9 (rd i))) := hc
    obtain ⟨i, _, hci⟩ := List.mem_map.mp hc'
    have : randint 0 9 (rd i) < 10 := by
      simp only [randint]
      omega
    exact hci ▸ digit_char_isDigit _ this
  · intro ns rs
    rw [List.all_eq_true]
    intro c hc
    have hc' : c ∈ (List.range ns).map
        (fun i => ALLOWED_SYMBOLS.toList.getD
          (randint 0 (ALLOWED_SYMBOLS.length - 1) (rs i)) ' ') := hc
    obtain ⟨i, _, hci⟩ := List.mem_map.mp hc'
    have hlen : ALLOWED_SYMBOLS.length - 1 = 26 := rfl
    have : randint 0 (ALLOWED_SYMBOLS.length - 1) (rs i) < 27 := by
      rw [hlen]
      simp only [randint]
      omega
    exact hci ▸ allowed_symbols_getD_mem _ this

/-- C7: when `min > max`, `generate_wordlist` raises the effective maximum
to `min` (never lowering the minimum), so a stripped line is retained
exactly when it matches the pattern and its length is exactly `min`. -/
theorem generate_wordlist_min_gt_max (lines : List String) (minl maxl : Nat)
    (p : Char → Bool) (h : maxl < minl) :
    ∀ w : String, w ∈ generate_wordlist lines minl maxl p ↔
      (w ∈ lines.map py_strip ∧ w.length = minl ∧ w.toList.all p = true) := by
  intro w
  have hmax : (if minl > maxl then minl else maxl) = minl := if_pos h
  simp only [generate_wordlist, hmax, List.mem_dedup, List.mem_filter,
    matches_filter, Bool.and_eq_true, decide_eq_true_eq]
  constructor
  · rintro ⟨hmem, ⟨h1, h2⟩, h3⟩
    exact ⟨hmem, Nat.le_antisymm h2 h1, h3⟩
  · rintro ⟨hmem, hlen, hall⟩
    exact ⟨hmem, ⟨Nat.le_of_eq hlen.symm, Nat.le_of_eq hlen⟩, hall⟩

theorem generate_wordlist_min_gt_max_witness :
    2 < 4
    ∧ ("tree" ∈ generate_wordlist ["apple", "tree ", "no"] 4 2 (fun c => c.isLower) ↔
        ("tree" ∈ ["apple", "tree ", "no"].map py_strip ∧ "tree".length = 4
          ∧ "tree".toList.all (fun c => c.isLower) = true)) :=
  ⟨by decide,
    generate_wordlist_min_gt_max ["apple", "tree ", "no"] 4 2 (fun c => c.isLower)
      (by decide) "tree"⟩

/-- C4: by default every word draw of `gen_passwd` consumes the secure
generator `rng()`, but the digit and symbol draws consume the module-level
(non-secure) generator via bare `random.randint`, so the trace of one call
with appended digits or symbols contains insecure draws. -/
theorem gen_passwd_insecure_draws :
    gen_passwd_rng_trace none 6 1 1
      = List.replicate 6 RngKind.secure ++ [RngKind.insecure, RngKind.insecure]
    ∧ RngKind.insecure ∈ gen_passwd_rng_trace none 6 1 1
    ∧ gen_passwd_rng_trace (some ['a', 'b']) 2 1 1
      = List.replicate 2 RngKind.secure ++ [RngKind.insecure, RngKind.insecure]
    ∧ ∀ numwords : Nat,
        (gen_passwd_rng_trace none numwords 0 0).all
          (fun k => decide (k = RngKind.secure)) = true := by
  refine ⟨by decide, by decide, by decide, ?_⟩
  intro n
  simp only [gen_passwd_rng_trace, List.replicate_zero, List.append_nil]
  rw [List.all_eq_true]
  intro k hk
  rw [List.eq_of_mem_replicate hk]
  decide

/-- C8: `verbose_reports` does not fail gracefully on a degenerate pool:
a pool of size 0 (empty wordlist, or an acrostic letter with no bucket)
makes `math.log(0, 2)` raise an uncaught ValueError, and a pool of size 1
produces the normal informational report (0 bits) with no diagnostic. -/
theorem verbose_reports_degenerate_pool :
    verbose_reports [] none 3 = some ReportResult.valueError
    ∧ (∀ numwords : Nat,
        verbose_reports [] none numwords = some ReportResult.valueError)
    ∧ verbose_reports ["ab"] none 1 = some (ReportResult.printed 1 1)
    ∧ verbose_reports ["cow", "ant"] (some ['x']) 1
        = some ReportResult.valueError := by
  exact ⟨by decide, fun _ => rfl, by decide, by decide⟩

/-- C9: in the deterministic test mode of `random_case` the casing of each
word is a function of the word's own text alone: the output equals a map
of a per-word coin over the lowercased words, is independent of the
incoming generator state, and the per-word `make_upper` result agrees
across any two invocations. -/
theorem random_case_testing_deterministic (g : PRNG) (words : List String)
    (st st' : Nat) :
    (random_case g words true st).1
      = (lower_case words).map (fun w => if word_coin g w then str_upper w else w)
    ∧ (random_case g words true st).1 = (random_case g words true st').1
    ∧ ∀ w : String, (make_upper g true w st).1 = (make_upper g true w st').1 := by
  refine ⟨random_case_go_testing_map g _ st, ?_, fun w => rfl⟩
  rw [random_case, random_case, random_case_go_testing_map, random_case_go_testing_map]

/-- C6: every case method is word-count preserving (including the random
method, for any generator, mode and state); the six deterministic methods
match their table definitions: lower and upper map per-word lowercasing
and uppercasing, capitalize and first capitalize each word, sentence
capitalizes only the first word and leaves the rest unchanged, and
alternating, after an implicit lowercase pass, uppercases the words at
even zero-based positions; and the table examples hold. -/
theorem case_methods_spec :
    (∀ (g : PRNG) (testing : Bool) (st : Nat) (words : List String),
      (lower_case words).length = words.length
      ∧ (upper_case words).length = words.length
      ∧ (capitalize_case words).length = words.length
      ∧ (first_upper_case words).length = words.length
      ∧ (sentence_case words).length = words.length
      ∧ (alternating_case words).length = words.length
      ∧ (random_case g words testing st).1.length = words.length)
    ∧ (∀ words : List String,
        lower_case words = words.map str_lower
        ∧ upper_case words = words.map str_upper
        ∧ capitalize_case words = words.map str_capitalize
        ∧ first_upper_case words = words.map str_capitalize)
    ∧ sentence_case [] = []
    ∧ (∀ (w : String) (ws : List String),
        sentence_case (w :: ws) = str_capitalize w :: ws)
    ∧ (∀ (words : List String) (i : Nat),
        (alternating_case words).get? i
          = (words.get? i).map
              (fun w => if i % 2 = 0 then str_upper (str_lower w) else str_lower w))
    ∧ sentence_case ["foo", "bar"] = ["Foo", "bar"]
    ∧ alternating_case ["foo", "bar", "baz"] = ["FOO", "bar", "BAZ"]
    ∧ upper_case ["foo"] = ["FOO"] := by
  refine ⟨?_, fun words => ⟨rfl, rfl, rfl, rfl⟩, rfl, sentence_case_cons,
    alternating_case_get?, by decide, by decide, by decide⟩
  intro g testing st words
  refine ⟨by simp [lower_case], by simp [upper_case], by simp [capitalize_case],
    by simp [first_upper_case], by simp [sentence_case], ?_, ?_⟩
  · simp [alternating_case, lower_case]
  · rw [random_case, random_case_go_length, lower_case, List.length_map]

/-- C1: for `min ≤ max`, every word returned by `generate_wordlist` is the
whitespace-stripped form of a source line, has length between `min` and
`max` inclusive, consists only of characters matching the pattern, and
the returned list contains no duplicates. -/
theorem generate_wordlist_spec (lines : List String) (minl maxl : Nat)
    (p : Char → Bool) (h : minl ≤ maxl) :
    (∀ w ∈ generate_wordlist lines minl maxl p,
        minl ≤ w.length ∧ w.length ≤ maxl ∧ w.toList.all p = true
          ∧ ∃ line ∈ lines, w = py_strip line)
    ∧ (generate_wordlist lines minl maxl p).Nodup := by
  have hmax : (if minl > maxl then minl else maxl) = maxl := if_neg (Nat.not_lt.mpr h)
  constructor
  · intro w hw
    simp only [generate_wordlist, hmax, List.mem_dedup, List.mem_filter,
      matches_filter, Bool.and_eq_true, decide_eq_true_eq, List.mem_map] at hw
    obtain ⟨⟨line, hline, hstrip⟩, ⟨h1, h2⟩, h3⟩ := hw
    exact ⟨h1, h2, h3, line, hline, hstrip.symm⟩
  · exact List.nodup_dedup _

theorem generate_wordlist_spec_witness :
    3 ≤ 5
    ∧ ((∀ w ∈ generate_wordlist ["  apple ", "bee", "apple", "Toolongword"] 3 5
          (fun c => c.isLower),
        3 ≤ w.length ∧ w.length ≤ 5 ∧ w.toList.all (fun c => c.isLower) = true
          ∧ ∃ line ∈ ["  apple ", "bee", "apple", "Toolongword"], w = py_strip line)
      ∧ (generate_wordlist ["  apple ", "bee", "apple", "Toolongword"] 3 5
          (fun c => c.isLower)).Nodup) :=
  ⟨by decide,
    generate_wordlist_spec ["  apple ", "bee", "apple", "Toolongword"] 3 5
      (fun c => c.isLower) (by decide)⟩

theorem choose_words_go_spec (wordlist : List String) (r : Nat → Nat)
    (hne : wordlist ≠ []) :
    ∀ n i : Nat, ∃ ws, choose_words_go wordlist r n i = some ws
      ∧ ws.length = n ∧ ∀ w ∈ ws, w ∈ wordlist := by
  intro n
  induction n with
  | zero => exact fun i => ⟨[], rfl, rfl, by intro w hw; cases hw⟩
  | succ n ih =>
    intro i
    have hpos : 0 < wordlist.length := List.length_pos.mpr hne
    have hlt : r i % wordlist.length < wordlist.length := Nat.mod_lt _ hpos
    have hw : rng_choice wordlist (r i) = some (wordlist.get ⟨r i % wordlist.length, hlt⟩) :=
      List.get?_eq_get hlt
    obtain ⟨ws, hws, hlen, hmem⟩ := ih (i + 1)
    refine ⟨wordlist.get ⟨r i % wordlist.length, hlt⟩ :: ws, ?_, by simp [hlen], ?_⟩
    · simp only [choose_words_go, hw, hws]
    · intro x hx
      rcases List.mem_cons.mp hx with hx | hx
      · exact hx ▸ List.get_mem wordlist _ hlt
      · exact hmem x hx

/-- C2: for every non-empty wordlist and every `k`, `choose_words` returns
a sequence of exactly `k` elements, each a member of the wordlist, and for
`k = 0` it returns the empty sequence. -/
theorem choose_words_spec (wordlist : List String) (r : Nat → Nat)
    (hne : wordlist ≠ []) :
    (∀ numwords : Nat, ∃ ws, choose_words wordlist numwords r = some ws
        ∧ ws.length = numwords ∧ ∀ w ∈ ws, w ∈ wordlist)
    ∧ choose_words wordlist 0 r = some [] :=
  ⟨fun numwords => choose_words_go_spec wordlist r hne numwords 0, rfl⟩

theorem choose_words_spec_witness :
    (["alpha", "bravo"] : List String) ≠ []
    ∧ ((∀ numwords : Nat,
          ∃ ws, choose_words ["alpha", "bravo"] numwords (fun i => i) = some ws
            ∧ ws.length = numwords ∧ ∀ w ∈ ws, w ∈ ["alpha", "bravo"])
      ∧ choose_words ["alpha", "bravo"] 0 (fun i => i) = some []) :=
  ⟨by decide, choose_words_spec ["alpha", "bravo"] (fun i => i) (by decide)⟩

/-! ## The acrostic index: lookup characterization -/

/-- The bucket the spec expects for the letter `c`: the in-order sublist of
the wordlist of words whose first character is `c`. -/
def bucket_of (wordlist : List String) (c : Char) : List String :=
  wordlist.filter (fun w => decide (first_char w = some c))

theorem dict_lookup_map_update (c c' : Char) (w : String) :
    ∀ d : List (Char × List String),
      dict_lookup c' (d.map (fun q => if q.1 = c then (q.1, q.2 ++ [w]) else q))
        = if c' = c then (dict_lookup c' d).map (fun b => b ++ [w])
          else dict_lookup c' d := by
  intro d
  induction d with
  | nil => by_cases h : c' = c <;> simp [dict_lookup, h]
  | cons q d ih =>
    by_cases hc : c' = c
    · subst hc
      by_cases hq : q.1 = c'
      · simp [dict_lookup, hq]
      · simp [dict_lookup, hq, ih]
    · have hcc : ¬c = c' := fun he => hc he.symm
      by_cases hq : q.1 = c
      · have hqc : ¬q.1 = c' := fun he => hc (he.symm.trans hq)
        simp [dict_lookup, hq, hqc, hc, hcc, ih]
      · by_cases hqc : q.1 = c'
        · simp [dict_lookup, hq, hqc, hc, ih]
        · simp [dict_lookup, hq, hqc, hc, ih]

theorem dict_lookup_append_right (c c' : Char) (w : String) :
    ∀ d : List (Char × List String),
      dict_lookup c' (d ++ [(c, [w])])
        = match dict_lookup c' d with
          | some b => some b
          | none => if c' = c then some [w] else none := by
  intro d
  induction d with
  | nil =>
    by_cases h : c = c'
    · simp [dict_lookup, h]
    · have h' : ¬c' = c := fun he => h he.symm
      simp [dict_lookup, h, h']
  | cons q d ih =>
    by_cases hqc : q.1 = c' <;> simp [dict_lookup, hqc, ih]

theorem dict_lookup_dict_append (d : List (Char × List String)) (c c' : Char)
    (w : String) :
    dict_lookup c' (dict_append d c w)
      = if c' = c then some ((dict_lookup c d).getD [] ++ [w])
        else dict_lookup c' d := by
  unfold dict_append
  by_cases hc : c' = c
  · subst hc
    cases hd : dict_lookup c' d with
    | some b => simp [dict_lookup_map_update, hd]
    | none => simp [dict_lookup_append_right, hd]
  · cases hd : dict_lookup c d with
    | some b => simp [dict_lookup_map_update, hc]
    | none =>
      rw [dict_lookup_append_right]
      cases hd2 : dict_lookup c' d <;> simp [hc]

theorem wordlist_to_worddict_go_lookup :
    ∀ (l : List String) (d : List (Char × List String)), (∀ w ∈ l, w ≠ "") →
      ∃ d', wordlist_to_worddict_go d l = some d'
        ∧ ∀ c, dict_lookup c d'
            = match dict_lookup c d, bucket_of l c with
              | none, [] => none
              | none, ws => some ws
              | some b, ws => some (b ++ ws) := by
  intro l
  induction l with
  | nil =>
    intro d _
    refine ⟨d, rfl, fun c => ?_⟩
    cases hd : dict_lookup c d <;> simp [bucket_of, hd]
  | cons w l ih =>
    intro d hne
    have hw : w ≠ "" := hne w (List.mem_cons_self w l)
    obtain ⟨c0, cs, hwt⟩ : ∃ c0 cs, w.toList = c0 :: cs := by
      cases hwt : w.toList with
      | nil =>
        exfalso
        apply hw
        cases w with
        | mk data =>
          simp only [String.toList] at hwt
          simp [hwt]
      | cons a b => exact ⟨a, b, rfl⟩
    have hwt' : w.data = c0 :: cs := hwt
    have hfc : first_char w = some c0 := by simp [first_char, hwt, hwt']
    obtain ⟨d', hgo, hlook⟩ :=
      ih (dict_append d c0 w) (fun x hx => hne x (List.mem_cons_of_mem w hx))
    refine ⟨d', ?_, fun c => ?_⟩
    · simp only [wordlist_to_worddict_go, hwt]
      exact hgo
    · rw [hlook c, dict_lookup_dict_append]
      by_cases hc : c = c0
      · subst hc
        have hb : bucket_of (w :: l) c = w :: bucket_of l c := by
          simp [bucket_of, List.filter_cons, hfc]
        rw [hb, if_pos rfl]
        cases hd : dict_lookup c d <;> simp
      · have hfcne : ¬(first_char w = some c) := by
          rw [hfc]
          exact fun he => hc (Option.some.inj he).symm
        have hb : bucket_of (w :: l) c = bucket_of l c := by
          simp [bucket_of, List.filter_cons, hfcne]
        rw [hb, if_neg hc]

theorem dict_lookup_eq_none_iff (c : Char) :
    ∀ d : List (Char × List String),
      dict_lookup c d = none ↔ c ∉ d.map Prod.fst := by
  intro d
  induction d with
  | nil => simp [dict_lookup]
  | cons q d ih =>
    simp only [dict_lookup, List.map, List.mem_cons]
    by_cases hq : q.1 = c
    · simp [hq]
    · simp only [if_neg hq, ih]
      constructor
      · intro h hmem
        rcases hmem with h1 | h1
        · exact hq h1.symm
        · exact h h1
      · intro h hmem
        exact h (Or.inr hmem)

theorem dict_append_keys_nodup (d : List (Char × List String)) (c : Char)
    (w : String) (h : (d.map Prod.fst).Nodup) :
    ((dict_append d c w).map Prod.fst).Nodup := by
  unfold dict_append
  cases hd : dict_lookup c d with
  | some b =>
    have hkeys : (d.map (fun q => if q.1 = c then (q.1, q.2 ++ [w]) else q)).map Prod.fst
        = d.map Prod.fst := by
      rw [List.map_map]
      apply List.map_congr_left
      intro q _
      by_cases hq : q.1 = c <;> simp [hq]
    rw [hkeys]
    exact h
  | none =>
    rw [List.map_append]
    have hnotin : c ∉ d.map Prod.fst := (dict_lookup_eq_none_iff c d).mp hd
    simp [List.nodup_append, h, hnotin]

theorem wordlist_to_worddict_go_nodup :
    ∀ (l : List String) (d : List (Char × List String)),
      (d.map Prod.fst).Nodup →
      ∀ d', wordlist_to_worddict_go d l = some d' → (d'.map Prod.fst).Nodup := by
  intro l
  induction l with
  | nil =>
    intro d hd d' h
    cases h
    exact hd
  | cons w l ih =>
    intro d hd d' h
    cases hwt : w.toList with
    | nil =>
      simp only [wordlist_to_worddict_go, hwt] at h
      exact Option.noConfusion h
    | cons c0 cs =>
      simp only [wordlist_to_worddict_go, hwt] at h
      exact ih (dict_append d c0 w) (dict_append_keys_nodup d c0 w hd) d' h

/-- C10: on a wordlist of non-empty strings, `wordlist_to_worddict` is total
and places each word in exactly one bucket, keyed by its first character
(keys are pairwise distinct; the bucket of `c` is exactly the in-order
sublist of words beginning with `c`, and is absent when that sublist is
empty). The non-emptiness precondition is necessary: the unguarded
`word[0]` fails on an empty-string entry, which `generate_wordlist`
produces when the minimum length is zero. -/
theorem wordlist_to_worddict_spec (wordlist : List String)
    (h : ∀ w ∈ wordlist, w ≠ "") :
    (∃ d, wordlist_to_worddict wordlist = some d
      ∧ (d.map Prod.fst).Nodup
      ∧ ∀ c, dict_lookup c d
          = if bucket_of wordlist c = [] then none
            else some (bucket_of wordlist c))
    ∧ generate_wordlist [""] 0 0 (fun _ => true) = [""]
    ∧ wordlist_to_worddict [""] = none := by
  refine ⟨?_, by decide, by decide⟩
  obtain ⟨d, hgo, hlook⟩ := wordlist_to_worddict_go_lookup wordlist [] h
  refine ⟨d, hgo, wordlist_to_worddict_go_nodup wordlist [] (by simp) d hgo,
    fun c => ?_⟩
  rw [hlook c]
  cases hb : bucket_of wordlist c with
  | nil => simp [dict_lookup]
  | cons x xs => simp [dict_lookup]

theorem wordlist_to_worddict_spec_witness :
    (∀ w ∈ (["apple", "ant", "bee"] : List String), w ≠ "")
    ∧ ((∃ d, wordlist_to_worddict ["apple", "ant", "bee"] = some d
        ∧ (d.map Prod.fst).Nodup
        ∧ ∀ c, dict_lookup c d
            = if bucket_of ["apple", "ant", "bee"] c = [] then none
              else some (bucket_of ["apple", "ant", "bee"] c))
      ∧ generate_wordlist [""] 0 0 (fun _ => true) = [""]
      ∧ wordlist_to_worddict [""] = none) :=
  ⟨by decide, wordlist_to_worddict_spec ["apple", "ant", "bee"] (by decide)⟩

theorem find_acrostic_go_ok (d : List (Char × List String)) (r : Nat → Nat)
    (P : String → Prop)
    (hbuck : ∀ c b, dict_lookup c d = some b →
      b ≠ [] ∧ ∀ w ∈ b, first_char w = some c ∧ P w) :
    ∀ (acr : List Char) (i : Nat), (∀ c ∈ acr, dict_lookup c d ≠ none) →
      ∃ ws, find_acrostic_go d r acr i = Except.ok ws
        ∧ List.Forall₂ (fun (w : String) (c : Char) => first_char w = some c) ws acr
        ∧ ∀ w ∈ ws, P w := by
  intro acr
  induction acr with
  | nil => exact fun i _ => ⟨[], rfl, List.Forall₂.nil, by intro w hw; cases hw⟩
  | cons c cs ih =>
    intro i hall
    cases hd : dict_lookup c d with
    | none => exact absurd hd (hall c (List.mem_cons_self c cs))
    | some b =>
      obtain ⟨hbne, hbmem⟩ := hbuck c b hd
      have hpos : 0 < b.length := List.length_pos.mpr hbne
      have hlt : r i % b.length < b.length := Nat.mod_lt _ hpos
      have hch : rng_choice b (r i) = some (b.get ⟨r i % b.length, hlt⟩) :=
        List.get?_eq_get hlt
      obtain ⟨ws, hws, hfa, hP⟩ :=
        ih (i + 1) (fun x hx => hall x (List.mem_cons_of_mem c hx))
      have hmem : b.get ⟨r i % b.length, hlt⟩ ∈ b := List.get_mem b _ hlt
      refine ⟨b.get ⟨r i % b.length, hlt⟩ :: ws, ?_, ?_, ?_⟩
      · simp only [find_acrostic_go, hd, hch, hws]
      · exact List.Forall₂.cons (hbmem _ hmem).1 hfa
      · intro x hx
        rcases List.mem_cons.mp hx with hx | hx
        · exact hx ▸ (hbmem _ hmem).2
        · exact hP x hx

theorem find_acrostic_go_error (d : List (Char × List String)) (r : Nat → Nat)
    (hbuck : ∀ c b, dict_lookup c d = some b → b ≠ []) :
    ∀ (acr : List Char) (i : Nat), (∃ c ∈ acr, dict_lookup c d = none) →
      ∃ c ∈ acr, dict_lookup c d = none
        ∧ find_acrostic_go d r acr i
            = Except.error (GenError.exitOne (no_words_message c)) := by
  intro acr
  induction acr with
  | nil =>
    rintro i ⟨c, hc, _⟩
    cases hc
  | cons c0 cs ih =>
    intro i hex
    cases hd : dict_lookup c0 d with
    | none =>
      exact ⟨c0, List.mem_cons_self c0 cs, hd, by simp only [find_acrostic_go, hd]⟩
    | some b =>
      have hbne := hbuck c0 b hd
      have hpos : 0 < b.length := List.length_pos.mpr hbne
      have hlt : r i % b.length < b.length := Nat.mod_lt _ hpos
      have hch : rng_choice b (r i) = some (b.get ⟨r i % b.length, hlt⟩) :=
        List.get?_eq_get hlt
      obtain ⟨c, hc, hcnone⟩ := hex
      have hc' : c ∈ cs := by
        rcases List.mem_cons.mp hc with h | h
        · subst h
          rw [hd] at hcnone
          exact Option.noConfusion hcnone
        · exact h
      obtain ⟨c1, hc1, hnone1, heq⟩ := ih (i + 1) ⟨c, hc', hcnone⟩
      refine ⟨c1, List.mem_cons_of_mem c0 hc1, hnone1, ?_⟩
      simp only [find_acrostic_go, hd, hch, heq]

/-- C3: with buckets built by `wordlist_to_worddict` from a wordlist of
non-empty words: when every acrostic character has a bucket,
`find_acrostic` returns exactly one word per character, in order, the
i-th word beginning with the i-th acrostic character (each drawn from the
wordlist); when some required bucket is absent, it terminates generation
with the "No words found starting with" diagnostic and exit status 1
instead of returning a result. -/
theorem find_acrostic_spec (wordlist : List String)
    (d : List (Char × List String)) (acrostic : List Char) (r : Nat → Nat)
    (hwl : ∀ w ∈ wordlist, w ≠ "")
    (hd : wordlist_to_worddict wordlist = some d) :
    ((∀ c ∈ acrostic, dict_lookup c d ≠ none) →
      ∃ ws, find_acrostic acrostic d r = Except.ok ws
        ∧ List.Forall₂ (fun (w : String) (c : Char) => first_char w = some c)
            ws acrostic
        ∧ ∀ w ∈ ws, w ∈ wordlist)
    ∧ ((∃ c ∈ acrostic, dict_lookup c d = none) →
      ∃ c ∈ acrostic, dict_lookup c d = none
        ∧ find_acrostic acrostic d r
            = Except.error (GenError.exitOne (no_words_message c))) := by
  obtain ⟨d0, hgo, hlook⟩ := wordlist_to_worddict_go_lookup wordlist [] hwl
  have hdd : d = d0 := Option.some.inj (hd.symm.trans hgo)
  subst hdd
  have hbuck : ∀ c b, dict_lookup c d = some b →
      b ≠ [] ∧ ∀ w ∈ b, first_char w = some c ∧ w ∈ wordlist := by
    intro c b hcb
    rw [hlook c] at hcb
    cases hb : bucket_of wordlist c with
    | nil =>
      rw [hb] at hcb
      simp [dict_lookup] at hcb
    | cons x xs =>
      rw [hb] at hcb
      simp only [dict_lookup] at hcb
      have hbb : b = x :: xs := (Option.some.inj hcb).symm
      subst hbb
      refine ⟨by simp, ?_⟩
      intro w hw
      have hwb : w ∈ bucket_of wordlist c := by rw [hb]; exact hw
      simp only [bucket_of] at hwb
      have hmf := List.mem_filter.mp hwb
      exact ⟨of_decide_eq_true hmf.2, hmf.1⟩
  exact ⟨fun hall => find_acrostic_go_ok d r (· ∈ wordlist) hbuck acrostic 0 hall,
    fun hex =>
      find_acrostic_go_error d r (fun c b hcb => (hbuck c b hcb).1) acrostic 0 hex⟩

theorem find_acrostic_spec_witness :
    (∀ w ∈ (["cow", "ant", "tip"] : List String), w ≠ "")
    ∧ wordlist_to_worddict ["cow", "ant", "tip"]
        = some [('c', ["cow"]), ('a', ["ant"]), ('t', ["tip"])]
    ∧ (((∀ c ∈ (['c', 'a', 't'] : List Char),
          dict_lookup c [('c', ["cow"]), ('a', ["ant"]), ('t', ["tip"])] ≠ none) →
        ∃ ws, find_acrostic ['c', 'a', 't']
              [('c', ["cow"]), ('a', ["ant"]), ('t', ["tip"])] (fun _ => 0)
            = Except.ok ws
          ∧ List.Forall₂ (fun (w : String) (c : Char) => first_char w = some c) ws
              ['c', 'a', 't']
          ∧ ∀ w ∈ ws, w ∈ ["cow", "ant", "tip"])
      ∧ ((∃ c ∈ (['c', 'a', 't'] : List Char),
            dict_lookup c [('c', ["cow"]), ('a', ["ant"]), ('t', ["tip"])] = none) →
        ∃ c ∈ (['c', 'a', 't'] : List Char),
          dict_lookup c [('c', ["cow"]), ('a', ["ant"]), ('t', ["tip"])] = none
            ∧ find_acrostic ['c', 'a', 't']
                  [('c', ["cow"]), ('a', ["ant"]), ('t', ["tip"])] (fun _ => 0)
                = Except.error (GenError.exitOne (no_words_message c)))) :=
  ⟨by decide, by decide,
    find_acrostic_spec ["cow", "ant", "tip"]
      [('c', ["cow"]), ('a', ["ant"]), ('t', ["tip"])] ['c', 'a', 't']
      (fun _ => 0) (by decide) (by decide)⟩

end XkcdPass
